import Mathlib

/-!
Verification development for the native-shell authorization coordinator
(`src/Auth0CordovaFork/index.js`) and the provider integration of this
repository.  The coordinator is embedded as an explicit state machine:
the module-global session store is a record, the `agent.open` event
callback becomes a step function on that record, and `setTimeout`
becomes a queue of pending deferred confirmations.  Callback
invocations and side effects are recorded in explicit logs so that
ordering claims ("clean, then callback") are statable.
-/

/-- State of the process-wide session store (`session` module).
The store itself (`./session`) is not part of the sources here;
its two flags and the semantics of `clean`/`start`/`closing` are
taken from the specification of the Session Store. -/
structure SessionState where
  isAuthorizing : Bool
  isClosing : Bool
deriving Repr, DecidableEq

/-- Clean session-store state: `isAuthorizing = false`, `isClosing = false`. -/
def cleanSession : SessionState := ⟨false, false⟩

/-- Modelled from the spec: `session.clean()` (`./session` is absent from
the sources) unconditionally resets both flags. -/
def sessionClean (_s : SessionState) : SessionState := cleanSession

/-- Modelled from the spec: `session.start(handler)` marks
`isAuthorizing = true` and registers the redirect handler. -/
def sessionStart (s : SessionState) : SessionState := { s with isAuthorizing := true }

/-- Modelled from the spec: `session.closing()` marks `isClosing = true`. -/
def sessionClosing (s : SessionState) : SessionState := { s with isClosing := true }

/-- Fixed deferral used before confirming a cancellation on non-iOS
platforms (`var closingDelayMs = 1000;`, line 5 of the coordinator). -/
def closingDelayMs : Nat := 1000

/-- Value delivered to the `authorize` callback: an error with its
message, or a success result. -/
inductive CbCall where
  | err (msg : String)
  | ok
deriving Repr, DecidableEq

/-- Observable actions the coordinator performs, in program order. -/
inductive CoordAction where
  | sessionCleanA
  | sessionStartA
  | sessionClosingA
  | callbackA (c : CbCall)
  | agentOpenA
  | agentCloseA
  | scheduleTimerA (delayMs : Nat)
deriving Repr, DecidableEq

/-- Whole-machine state for one `authorize` attempt: the session store,
the log of callback invocations, the queue of scheduled `handleClose`
timers (their delays, in scheduling order), the full action log, and
bookkeeping flags recording which external effects have happened. -/
structure AuthState where
  sess : SessionState
  cbCalls : List CbCall
  pendingTimers : List Nat
  actions : List CoordAction
  agentRequested : Bool
  sessionStarted : Bool
  openCalled : Bool
deriving Repr, DecidableEq

/-- Events that can reach the coordinator after `agent.open`:
an agent-reported open error, the `loaded` event, the `closed` event,
any other event, the expiry of a scheduled `handleClose` timer, and
the redirect delivered to the session's registered hook. -/
inductive OpenEv where
  | err (msg : String)
  | loaded
  | closed
  | other
  | timer
  | redirect
deriving Repr, DecidableEq

/-- Embedding of `handleClose` (coordinator lines 112-117): if the
session is still closing, clean it and invoke the callback with
`new Error('user canceled')`; otherwise do nothing. -/
def handleClose (s : AuthState) : AuthState :=
  if s.sess.isClosing then
    { s with
      sess := sessionClean s.sess,
      cbCalls := s.cbCalls ++ [CbCall.err "user canceled"],
      actions := s.actions ++ [CoordAction.sessionCleanA, CoordAction.callbackA (CbCall.err "user canceled")] }
  else s

/-- One step of the coordinator's event handling (lines 61-132).
`err` is the open callback with a non-null error: `session.clean()`
then `callback(error)`.  `closed` marks the session closing, then on
iOS runs `handleClose` synchronously and on other platforms schedules
it after `closingDelayMs`.  `loaded` and any other event are ignored.
`timer` is the expiry of the earliest scheduled deferral, which runs
`handleClose`.  `redirect` is the registered `session.start` hook
firing: the hook closes the agent (line 85); the session-side reset of
the flags on a consumed redirect is modelled from the spec (`./session`
is absent from the sources). -/
def stepOpen (os : String) (e : OpenEv) (s : AuthState) : AuthState :=
  match e with
  | .err m =>
    { s with
      sess := sessionClean s.sess,
      cbCalls := s.cbCalls ++ [CbCall.err m],
      actions := s.actions ++ [CoordAction.sessionCleanA, CoordAction.callbackA (CbCall.err m)] }
  | .closed =>
    let s1 := { s with sess := sessionClosing s.sess, actions := s.actions ++ [CoordAction.sessionClosingA] }
    if os = "ios" then
      handleClose s1
    else
      { s1 with
        pendingTimers := s1.pendingTimers ++ [closingDelayMs],
        actions := s1.actions ++ [CoordAction.scheduleTimerA closingDelayMs] }
  | .loaded => s
  | .other => s
  | .timer =>
    match s.pendingTimers with
    | [] => s
    | _d :: rest => handleClose { s with pendingTimers := rest }
  | .redirect =>
    if s.sessionStarted then
      { s with
        sess := sessionClean s.sess,
        actions := s.actions ++ [CoordAction.agentCloseA, CoordAction.sessionCleanA] }
    else s

/-- Result of `getAgent` (line 40): an acquisition error or an agent. -/
inductive AcqResult where
  | err (msg : String)
  | ok
deriving Repr, DecidableEq

/-- State at module load: `session.clean()` has run (line 7) and no
attempt has started. -/
def initialAuthState : AuthState :=
  ⟨cleanSession, [], [], [], false, false, false⟩

/-- Deliver a sequence of post-open events to the coordinator. -/
def runOpenEvents (os : String) (evs : List OpenEv) (s : AuthState) : AuthState :=
  evs.foldl (fun st e => stepOpen os e st) s

/-- Embedding of `authorize(url, callback)` (lines 33-134).
`cbIsFunction` is the result of the JS callable check on `callback`;
when it fails, the call throws `'callback not specified or is not a
function'` before any side effect (the returned state is the untouched
module state, and the second component carries the thrown message).
Otherwise `getAgent` runs: on acquisition error the callback is
invoked with it and nothing else happens; on success `session.start`
registers the redirect hook, `agent.open` is called, and the given
event sequence is processed by `stepOpen`.  `startedState` is the
state right after `session.start` and `agent.open` have run, before
any open event arrives. -/
def startedState : AuthState :=
  { initialAuthState with
    agentRequested := true,
    sess := sessionStart initialAuthState.sess,
    sessionStarted := true,
    openCalled := true,
    actions := [CoordAction.sessionStartA, CoordAction.agentOpenA] }

def authorize (cbIsFunction : Bool) (os : String) (acq : AcqResult) (evs : List OpenEv) :
    AuthState × Option String :=
  if !cbIsFunction then
    (initialAuthState, some "callback not specified or is not a function")
  else
    match acq with
    | .err m =>
      ({ initialAuthState with
         agentRequested := true,
         cbCalls := [CbCall.err m],
         actions := [CoordAction.callbackA (CbCall.err m)] }, none)
    | .ok => (runOpenEvents os evs startedState, none)

/-- Events that make the coordinator reach for the callback: an open
error or a `closed` event. -/
def isTerminalEv : OpenEv → Bool
  | .err _ => true
  | .closed => true
  | _ => false

/-- Number of terminal events (open errors and `closed` events) in a
delivered event sequence. -/
def terminalCount (evs : List OpenEv) : Nat :=
  (evs.filter isTerminalEv).length

/-- Potential bounding future callback invocations: calls already made,
plus one if a live closing flag can still be confirmed by a pending
timer. -/
def pot (s : AuthState) : Nat :=
  s.cbCalls.length + (if s.sess.isClosing && !s.pendingTimers.isEmpty then 1 else 0)

theorem cbCalls_length_le_pot (s : AuthState) : s.cbCalls.length ≤ pot s := by
  unfold pot
  omega

theorem pot_stepOpen_le (os : String) (e : OpenEv) (s : AuthState) :
    pot (stepOpen os e s) ≤ pot s + (if isTerminalEv e then 1 else 0) := by
  cases e with
  | err m =>
    simp [stepOpen, pot, isTerminalEv, sessionClean, cleanSession]
  | loaded => simp [stepOpen, isTerminalEv]
  | other => simp [stepOpen, isTerminalEv]
  | closed =>
    by_cases hos : os = "ios"
    · subst hos
      simp [stepOpen, handleClose, pot, isTerminalEv, sessionClosing, sessionClean,
        cleanSession]
    · simp [stepOpen, hos, pot, isTerminalEv, sessionClosing]
  | timer =>
    cases hp : s.pendingTimers with
    | nil => simp [stepOpen, hp, isTerminalEv]
    | cons d rest =>
      by_cases hc : s.sess.isClosing
      · simp [stepOpen, hp, handleClose, hc, pot, isTerminalEv, sessionClean,
          cleanSession]
      · simp [stepOpen, hp, handleClose, hc, pot, isTerminalEv]
  | redirect =>
    by_cases hs : s.sessionStarted
    · simp [stepOpen, hs, pot, isTerminalEv, sessionClean, cleanSession]
    · simp [stepOpen, hs, isTerminalEv]

theorem pot_runOpenEvents_le (os : String) (evs : List OpenEv) (s : AuthState) :
    pot (runOpenEvents os evs s) ≤ pot s + terminalCount evs := by
  induction evs generalizing s with
  | nil => simp [runOpenEvents, terminalCount]
  | cons e evs ih =>
    have h1 : pot (runOpenEvents os evs (stepOpen os e s)) ≤
        pot (stepOpen os e s) + terminalCount evs := ih _
    have h2 := pot_stepOpen_le os e s
    have h3 : runOpenEvents os (e :: evs) s = runOpenEvents os evs (stepOpen os e s) := rfl
    have h4 : terminalCount (e :: evs) =
        (if isTerminalEv e then 1 else 0) + terminalCount evs := by
      simp only [terminalCount, List.filter_cons]
      split <;> simp [Nat.add_comm]
    rw [h3, h4]
    omega

/-- Claim C2: on the iOS platform family, a `closed` event confirms the
cancellation synchronously in the same handler turn: the session is
marked closing, immediately cleaned, and the callback is invoked with
an error whose message is `user canceled`, all before the handler
returns; no timer is scheduled and the pending-timer queue is
unchanged. -/
theorem claim2_ios_closed_synchronous_cancel (s : AuthState) :
    stepOpen "ios" OpenEv.closed s =
      { s with
        sess := cleanSession,
        cbCalls := s.cbCalls ++ [CbCall.err "user canceled"],
        actions := s.actions ++ [CoordAction.sessionClosingA, CoordAction.sessionCleanA,
          CoordAction.callbackA (CbCall.err "user canceled")] } := by
  simp [stepOpen, handleClose, sessionClosing, sessionClean]

/-- Claim C3: on a non-iOS platform, a `closed` event defers the
confirmation by exactly `closingDelayMs = 1000` milliseconds without
invoking the callback, and when that timer fires with `isClosing`
still set, the session is cleaned and the callback is invoked exactly
once with an error whose message is exactly `user canceled`. -/
theorem claim3_non_ios_deferred_cancel (os : String) (s0 : AuthState)
    (hos : os ≠ "ios") (hp : s0.pendingTimers = []) :
    (stepOpen os OpenEv.closed s0).pendingTimers = [closingDelayMs] ∧
    closingDelayMs = 1000 ∧
    (stepOpen os OpenEv.closed s0).cbCalls = s0.cbCalls ∧
    (stepOpen os OpenEv.timer (stepOpen os OpenEv.closed s0)).cbCalls =
      s0.cbCalls ++ [CbCall.err "user canceled"] ∧
    (stepOpen os OpenEv.timer (stepOpen os OpenEv.closed s0)).sess = cleanSession ∧
    (stepOpen os OpenEv.timer (stepOpen os OpenEv.closed s0)).pendingTimers = [] := by
  simp [stepOpen, hos, hp, handleClose, sessionClosing, sessionClean, closingDelayMs]

theorem claim3_witness :
    "android" ≠ "ios" ∧
    ((stepOpen "android" OpenEv.closed initialAuthState).pendingTimers = [closingDelayMs] ∧
     closingDelayMs = 1000 ∧
     (stepOpen "android" OpenEv.closed initialAuthState).cbCalls = initialAuthState.cbCalls ∧
     (stepOpen "android" OpenEv.timer (stepOpen "android" OpenEv.closed initialAuthState)).cbCalls =
       initialAuthState.cbCalls ++ [CbCall.err "user canceled"] ∧
     (stepOpen "android" OpenEv.timer (stepOpen "android" OpenEv.closed initialAuthState)).sess =
       cleanSession ∧
     (stepOpen "android" OpenEv.timer (stepOpen "android" OpenEv.closed initialAuthState)).pendingTimers =
       []) :=
  ⟨by decide, claim3_non_ios_deferred_cancel "android" initialAuthState (by decide) rfl⟩

/-- Claim C4: when a deferred confirmation timer fires after the
session's `isClosing` flag has been cleared, it is a no-op: the
session is untouched, no callback is invoked, and no action is
logged; only the expired timer leaves the queue. -/
theorem claim4_stale_timer_noop (os : String) (s : AuthState) (d : Nat) (rest : List Nat)
    (hc : s.sess.isClosing = false) (hp : s.pendingTimers = d :: rest) :
    stepOpen os OpenEv.timer s = { s with pendingTimers := rest } := by
  simp [stepOpen, hp, handleClose, hc]

theorem claim4_witness :
    ({ initialAuthState with pendingTimers := [closingDelayMs] } : AuthState).sess.isClosing =
      false ∧
    stepOpen "android" OpenEv.timer { initialAuthState with pendingTimers := [closingDelayMs] } =
      { initialAuthState with pendingTimers := ([] : List Nat) } :=
  ⟨rfl, claim4_stale_timer_noop "android"
    { initialAuthState with pendingTimers := [closingDelayMs] } closingDelayMs [] rfl rfl⟩

/-- Claim C5: calling `authorize` with a missing or non-callable
callback throws `callback not specified or is not a function`
synchronously, before any side effect: the returned module state is
the untouched initial state, in which no agent was requested, the
session store was never started, and no open was attempted. -/
theorem claim5_invalid_callback_throws (os : String) (acq : AcqResult) (evs : List OpenEv) :
    authorize false os acq evs =
      (initialAuthState, some "callback not specified or is not a function") ∧
    initialAuthState.agentRequested = false ∧
    initialAuthState.sessionStarted = false ∧
    initialAuthState.openCalled = false ∧
    initialAuthState.sess = cleanSession := by
  exact ⟨rfl, rfl, rfl, rfl, rfl⟩

/-- Claim C6: when agent acquisition fails with an error, the callback
is invoked exactly once with that error, nothing is opened, the
session store is never started and stays in the clean state, and no
exception is thrown. -/
theorem claim6_agent_error_callback_once (os : String) (m : String) (evs : List OpenEv) :
    (authorize true os (AcqResult.err m) evs).1.cbCalls = [CbCall.err m] ∧
    (authorize true os (AcqResult.err m) evs).1.sess = cleanSession ∧
    (authorize true os (AcqResult.err m) evs).1.sessionStarted = false ∧
    (authorize true os (AcqResult.err m) evs).1.openCalled = false ∧
    (authorize true os (AcqResult.err m) evs).1.actions =
      [CoordAction.callbackA (CbCall.err m)] ∧
    (authorize true os (AcqResult.err m) evs).2 = none := by
  exact ⟨rfl, rfl, rfl, rfl, rfl, rfl⟩

/-- Claim C7: when the agent's open event stream reports a non-null
error, the coordinator resets the session store to the clean state and
then invokes the callback with that error, in that order, and the
branch performs no other action: the timer queue and every other field
are unchanged. -/
theorem claim7_open_error_clean_then_callback (os : String) (m : String) (s : AuthState) :
    stepOpen os (OpenEv.err m) s =
      { s with
        sess := cleanSession,
        cbCalls := s.cbCalls ++ [CbCall.err m],
        actions := s.actions ++ [CoordAction.sessionCleanA,
          CoordAction.callbackA (CbCall.err m)] } := by
  simp [stepOpen, sessionClean]

/-- Claim C1 as stated is false: the coordinator does not guard the
callback against multiple terminal agent reports.  On iOS, a `closed`
event (confirmed cancellation) followed by an agent error on the same
attempt invokes the callback twice. -/
theorem claim1_counterexample :
    (authorize true "ios" AcqResult.ok [OpenEv.closed, OpenEv.err "agent failure"]).1.cbCalls =
      [CbCall.err "user canceled", CbCall.err "agent failure"] ∧
    ¬ ((authorize true "ios" AcqResult.ok
        [OpenEv.closed, OpenEv.err "agent failure"]).1.cbCalls.length ≤ 1) := by
  decide

/-- Claim C1, amended: for every `authorize` call, across every event
sequence that delivers at most one terminal agent report (an open
error or a `closed` event), the callback is invoked at most once;
this covers any interleaving with `loaded` events, other events,
redirect-hook firings and timer expiries. -/
theorem claim1_amended_callback_at_most_once (cb : Bool) (os : String) (acq : AcqResult)
    (evs : List OpenEv) (h : terminalCount evs ≤ 1) :
    (authorize cb os acq evs).1.cbCalls.length ≤ 1 := by
  cases cb with
  | false => simp [authorize, initialAuthState]
  | true =>
    cases acq with
    | err m => simp [authorize, initialAuthState]
    | ok =>
      have h1 := cbCalls_length_le_pot (runOpenEvents os evs startedState)
      have h2 := pot_runOpenEvents_le os evs startedState
      have h0 : pot startedState = 0 := rfl
      have heq : (authorize true os AcqResult.ok evs).1 = runOpenEvents os evs startedState := rfl
      rw [heq]
      omega

theorem claim1_amended_witness :
    terminalCount [OpenEv.loaded, OpenEv.closed, OpenEv.redirect, OpenEv.timer] ≤ 1 ∧
    (authorize true "android" AcqResult.ok
      [OpenEv.loaded, OpenEv.closed, OpenEv.redirect, OpenEv.timer]).1.cbCalls.length ≤ 1 :=
  ⟨by decide, claim1_amended_callback_at_most_once true "android" AcqResult.ok
    [OpenEv.loaded, OpenEv.closed, OpenEv.redirect, OpenEv.timer] (by decide)⟩

/-- Embedding of the JS `Array.prototype.join(sep)` used by
`getUniqueScopes` (`scopes.join(' ')` and `.join(' ')`). -/
def jsJoin (sep : String) : List String → String
  | [] => ""
  | [s] => s
  | s :: rest => s ++ sep ++ jsJoin sep rest

/-- Embedding of the JS `String.prototype.trim()`: drop whitespace
from both ends. -/
def jsTrim (s : String) : String :=
  String.mk (((s.data.dropWhile Char.isWhitespace).reverse.dropWhile Char.isWhitespace).reverse)

/-- Worker for the JS `split(/\s+/)`: scan the characters, collapsing
each maximal whitespace run into one separator.  `prevWs` records
whether the previous character was whitespace, `cur` holds the current
piece reversed, `acc` the finished pieces reversed. -/
def jsSplitWsGo : List Char → Bool → List Char → List String → List String
  | [], _, cur, acc => (String.mk cur.reverse :: acc).reverse
  | c :: rest, prevWs, cur, acc =>
    if c.isWhitespace then
      if prevWs then jsSplitWsGo rest true cur acc
      else jsSplitWsGo rest true [] (String.mk cur.reverse :: acc)
    else jsSplitWsGo rest false (c :: cur) acc

/-- Embedding of the JS `s.split(/\s+/)`: pieces between maximal
whitespace runs (an empty first or last piece when the string starts
or ends with whitespace, and `[""]` on the empty string). -/
def jsSplitWs (s : String) : List String :=
  jsSplitWsGo s.data false [] []

/-- Worker for `dedupe`: keep each string the first time it is seen,
mirroring insertion into a JS `Set`. -/
def dedupeGo : List String → List String → List String
  | [], _ => []
  | x :: xs, seen =>
    if x ∈ seen then dedupeGo xs seen else x :: dedupeGo xs (x :: seen)

/-- Embedding of `const dedupe = (arr) => Array.from(new Set(arr))`
(provider line 185): first occurrences, in order. -/
def dedupe (l : List String) : List String := dedupeGo l []

/-- Default scope constant of the provider
(`const DEFAULT_SCOPE = 'openid profile email'`, line 182). -/
def DEFAULT_SCOPE : String := "openid profile email"

/-- Embedding of `getUniqueScopes` (provider lines 186-188):
`dedupe(scopes.join(' ').trim().split(/\s+/)).join(' ')`. -/
def getUniqueScopes (scopes : List String) : String :=
  jsJoin " " (dedupe (jsSplitWs (jsTrim (jsJoin " " scopes))))

example : getUniqueScopes ["openid profile email", "openid read:data"] =
    "openid profile email read:data" := by decide
example : getUniqueScopes [] = "" := by decide
example : getUniqueScopes ["  ", " a   b a "] = "a b" := by decide

/-- Calls the provider makes while logging in, in order. -/
inductive ProviderCall where
  | buildAuthorizeUrlCall (url : String)
  | coordinatorAuthorize (url : String)
  | clientLoginWithRedirect
deriving Repr, DecidableEq

/-- Embedding of `nativeLogIn` (provider lines 413-423): build the
authorize URL through the delegated client, then hand it to the
coordinator's `authorize`.  The delegated client is abstracted as the
function `buildAuthorizeUrl` from (converted) redirect options to the
URL it returns. -/
def nativeLogIn {α : Type} (buildAuthorizeUrl : Option α → String) (options : Option α) :
    List ProviderCall :=
  [ProviderCall.buildAuthorizeUrlCall (buildAuthorizeUrl options),
   ProviderCall.coordinatorAuthorize (buildAuthorizeUrl options)]

/-- Embedding of `loginWithRedirect` (provider lines 425-434): with
`isNative` set it runs `nativeLogIn`, otherwise it delegates to
`client.loginWithRedirect`. -/
def loginWithRedirect {α : Type} (isNative : Bool) (buildAuthorizeUrl : Option α → String)
    (options : Option α) : List ProviderCall :=
  if isNative then nativeLogIn buildAuthorizeUrl options
  else [ProviderCall.clientLoginWithRedirect]

/-- Claim C8: `loginWithRedirect` with `isNative = true` builds the
authorize URL via the delegated client and passes exactly that URL to
the coordinator's `authorize`, never calling the client's own
`loginWithRedirect`; with `isNative = false` it delegates to the
client's `loginWithRedirect` and never calls the coordinator. -/
theorem claim8_login_with_redirect_dispatch {α : Type}
    (buildAuthorizeUrl : Option α → String) (options : Option α) :
    (loginWithRedirect true buildAuthorizeUrl options =
      [ProviderCall.buildAuthorizeUrlCall (buildAuthorizeUrl options),
       ProviderCall.coordinatorAuthorize (buildAuthorizeUrl options)] ∧
     ProviderCall.clientLoginWithRedirect ∉ loginWithRedirect true buildAuthorizeUrl options) ∧
    (loginWithRedirect false buildAuthorizeUrl options = [ProviderCall.clientLoginWithRedirect] ∧
     ∀ u, ProviderCall.coordinatorAuthorize u ∉ loginWithRedirect false buildAuthorizeUrl options) := by
  refine ⟨⟨rfl, ?_⟩, rfl, ?_⟩
  · simp [loginWithRedirect, nativeLogIn]
  · intro u
    simp [loginWithRedirect]

/-- Embedding of the JS short-circuit `a || b` on an optional string
(`undefined` and the empty string are falsy). -/
def jsOrStr (a : Option String) (b : String) : String :=
  match a with
  | none => b
  | some s => if s = "" then b else s

/-- Embedding of the JS short-circuit `a || b` when both operands are
optional strings. -/
def jsOrOpt (a : Option String) (b : Option String) : Option String :=
  match a with
  | none => b
  | some s => if s = "" then b else some s

/-- Outcome of `tryGetAccessTokenWithPopupOrReLogin`: the value the
returned promise resolves with, and the scope and audience passed to
`nativeLogIn` when it is triggered (`none` when it is not). -/
structure TryTokenResult where
  resolved : Option String
  loginScope : Option String
  loginAudience : Option String
  popupUsed : Bool
deriving Repr, DecidableEq

/-- Embedding of `tryGetAccessTokenWithPopupOrReLogin` (provider lines
508-529).  When `isNative` is false it returns the token produced by
`getAccessTokenWithPopup` (abstracted as `popupToken`).  When
`isNative` is true it merges the audience, widens the scope with the
default scopes through `getUniqueScopes`, triggers `nativeLogIn` and
resolves with `null`. -/
def tryGetAccessTokenWithPopupOrReLogin (isNative : Bool)
    (clientAudience clientScope optsAudience optsScope : Option String)
    (popupToken : String) : TryTokenResult :=
  if !isNative then
    { resolved := some popupToken, loginScope := none, loginAudience := none, popupUsed := true }
  else
    let audience := jsOrOpt optsAudience clientAudience
    let scope := getUniqueScopes [DEFAULT_SCOPE, jsOrStr optsScope (jsOrStr clientScope DEFAULT_SCOPE)]
    { resolved := none, loginScope := some scope, loginAudience := audience, popupUsed := false }

theorem string_mk_data (s : String) : String.mk s.data = s := rfl

theorem string_data_eq_nil_iff (s : String) : s.data = [] ↔ s = "" := by
  constructor
  · intro h
    have h2 : String.mk s.data = String.mk [] := by rw [h]
    exact h2
  · intro h
    rw [h]

theorem jsSplitWsGo_acc (l : List Char) (b : Bool) (cur : List Char) (acc : List String) :
    jsSplitWsGo l b cur acc = acc.reverse ++ jsSplitWsGo l b cur [] := by
  induction l generalizing b cur acc with
  | nil => simp [jsSplitWsGo]
  | cons c rest ih =>
    by_cases hw : c.isWhitespace
    · cases b with
      | true =>
        simp only [jsSplitWsGo, hw, if_true]
        exact ih true cur acc
      | false =>
        simp only [jsSplitWsGo, hw, if_true, Bool.false_eq_true, if_false]
        rw [ih true [] (String.mk cur.reverse :: acc), ih true [] [String.mk cur.reverse]]
        simp
    · simp only [jsSplitWsGo, hw, Bool.false_eq_true, if_false]
      exact ih false (c :: cur) acc

theorem jsSplitWsGo_token : ∀ (tc : List Char), (∀ c ∈ tc, c.isWhitespace = false) →
    ∀ (rest : List Char) (b : Bool) (cur : List Char) (acc : List String), tc ≠ [] →
    jsSplitWsGo (tc ++ rest) b cur acc = jsSplitWsGo rest false (tc.reverse ++ cur) acc := by
  intro tc
  induction tc with
  | nil =>
    intro _ _ _ _ _ h
    exact absurd rfl h
  | cons c tc ih =>
    intro hws rest b cur acc _
    have hc : c.isWhitespace = false := hws c (List.mem_cons_self c tc)
    by_cases h2 : tc = []
    · subst h2
      simp [jsSplitWsGo, hc]
    · have step : jsSplitWsGo ((c :: tc) ++ rest) b cur acc =
          jsSplitWsGo (tc ++ rest) false (c :: cur) acc := by
        simp [jsSplitWsGo, hc]
      rw [step, ih (fun d hd => hws d (List.mem_cons_of_mem c hd)) rest false (c :: cur) acc h2]
      simp

theorem jsSplitWsGo_sep (J : List Char) (cur : List Char) (acc : List String) :
    jsSplitWsGo (' ' :: J) false cur acc =
      jsSplitWsGo J true [] (String.mk cur.reverse :: acc) := by
  have h : (' ' : Char).isWhitespace = true := by decide
  simp [jsSplitWsGo, h]

theorem jsSplitWsGo_ne_nil (l : List Char) (b : Bool) (cur : List Char) (acc : List String) :
    jsSplitWsGo l b cur acc ≠ [] := by
  induction l generalizing b cur acc with
  | nil => simp [jsSplitWsGo]
  | cons c rest ih =>
    by_cases hw : c.isWhitespace
    · cases b with
      | true => simpa [jsSplitWsGo, hw] using ih true cur acc
      | false => simpa [jsSplitWsGo, hw] using ih true [] (String.mk cur.reverse :: acc)
    · simpa [jsSplitWsGo, hw] using ih false (c :: cur) acc

theorem jsSplitWsGo_wsFree (l : List Char) (b : Bool) (cur : List Char) (acc : List String)
    (hcur : ∀ c ∈ cur, c.isWhitespace = false)
    (hacc : ∀ u ∈ acc, ∀ c ∈ u.data, c.isWhitespace = false) :
    ∀ u ∈ jsSplitWsGo l b cur acc, ∀ c ∈ u.data, c.isWhitespace = false := by
  induction l generalizing b cur acc with
  | nil =>
    intro u hu
    simp only [jsSplitWsGo, List.mem_reverse, List.mem_cons] at hu
    rcases hu with h | h
    · subst h
      intro c hc
      exact hcur c (List.mem_reverse.mp hc)
    · exact hacc u h
  | cons ch rest ih =>
    by_cases hw : ch.isWhitespace
    · cases b with
      | true =>
        simp only [jsSplitWsGo, hw, if_true]
        exact ih true cur acc hcur hacc
      | false =>
        simp only [jsSplitWsGo, hw, if_true, Bool.false_eq_true, if_false]
        refine ih true [] (String.mk cur.reverse :: acc) (by simp) ?_
        intro u hu
        rcases List.mem_cons.mp hu with h | h
        · subst h
          intro c hc
          exact hcur c (List.mem_reverse.mp hc)
        · exact hacc u h
    · simp only [jsSplitWsGo, hw, Bool.false_eq_true, if_false]
      refine ih false (ch :: cur) acc ?_ hacc
      intro c hc
      rcases List.mem_cons.mp hc with h | h
      · subst h
        simpa using hw
      · exact hcur c h

theorem string_mk_ne_empty (cur : List Char) (h : cur ≠ []) : String.mk cur ≠ "" := by
  intro he
  have : (String.mk cur).data = [] := (string_data_eq_nil_iff (String.mk cur)).mpr he
  exact h this

theorem jsSplitWsGo_ne_empty (l : List Char) (b : Bool) (cur : List Char) (acc : List String)
    (hacc : ∀ u ∈ acc, u ≠ "")
    (hinv : (b = true ∧ cur = []) ∨ (b = false ∧ cur ≠ []))
    (hend : l = [] → b = false)
    (hlast : ∀ c, l.getLast? = some c → c.isWhitespace = false) :
    ∀ u ∈ jsSplitWsGo l b cur acc, u ≠ "" := by
  induction l generalizing b cur acc with
  | nil =>
    have hb : b = false := hend rfl
    rcases hinv with ⟨h1, _⟩ | ⟨_, hcur⟩
    · rw [hb] at h1
      exact absurd h1 (by simp)
    · intro u hu
      simp only [jsSplitWsGo, List.mem_reverse, List.mem_cons] at hu
      rcases hu with h | h
      · subst h
        exact string_mk_ne_empty cur.reverse (by simpa using hcur)
      · exact hacc u h
  | cons c rest ih =>
    have htail : rest ≠ [] → ∀ d, rest.getLast? = some d → d.isWhitespace = false := by
      intro hr d hd
      apply hlast
      rcases rest with _ | ⟨r, rs⟩
      · exact absurd rfl hr
      · rw [List.getLast?_cons_cons]
        exact hd
    by_cases hw : c.isWhitespace
    · have hrest : rest ≠ [] := by
        rintro rfl
        have := hlast c rfl
        rw [hw] at this
        exact absurd this (by simp)
      cases b with
      | true =>
        rcases hinv with ⟨_, hcur⟩ | ⟨h1, _⟩
        · subst hcur
          simp only [jsSplitWsGo, hw, if_true]
          exact ih true [] acc hacc (Or.inl ⟨rfl, rfl⟩)
            (fun h => absurd h hrest) (htail hrest)
        · exact absurd h1 (by simp)
      | false =>
        rcases hinv with ⟨h1, _⟩ | ⟨_, hcur⟩
        · exact absurd h1 (by simp)
        · simp only [jsSplitWsGo, hw, if_true, Bool.false_eq_true, if_false]
          refine ih true [] (String.mk cur.reverse :: acc) ?_ (Or.inl ⟨rfl, rfl⟩)
            (fun h => absurd h hrest) (htail hrest)
          intro u hu
          rcases List.mem_cons.mp hu with h | h
          · subst h
            exact string_mk_ne_empty cur.reverse (by simpa using hcur)
          · exact hacc u h
    · simp only [jsSplitWsGo, hw, Bool.false_eq_true, if_false]
      refine ih false (c :: cur) acc hacc (Or.inr ⟨rfl, by simp⟩) (fun _ => rfl) ?_
      intro d hd
      apply htail ?_ d hd
      rintro rfl
      simp at hd

theorem head_dropWhile_not {α : Type} (p : α → Bool) (l : List α) :
    ∀ c, (l.dropWhile p).head? = some c → p c = false := by
  induction l with
  | nil => simp
  | cons a rest ih =>
    intro c hc
    by_cases ha : p a
    · rw [List.dropWhile_cons, if_pos ha] at hc
      exact ih c hc
    · rw [List.dropWhile_cons, if_neg ha] at hc
      simp only [List.head?_cons, Option.some.injEq] at hc
      subst hc
      simpa using ha

theorem getLast_dropWhile {α : Type} (p : α → Bool) (l : List α) (h : l.dropWhile p ≠ []) :
    (l.dropWhile p).getLast? = l.getLast? := by
  induction l with
  | nil => simp at h
  | cons c rest ih =>
    by_cases hc : p c
    · rw [List.dropWhile_cons, if_pos hc] at h ⊢
      rw [ih h]
      have hrest : rest ≠ [] := by
        rintro rfl
        simp at h
      rcases rest with _ | ⟨r, rs⟩
      · exact absurd rfl hrest
      · rw [List.getLast?_cons_cons]
    · rw [List.dropWhile_cons, if_neg hc]

theorem jsTrim_eq_self (s : String)
    (h1 : ∀ c, s.data.head? = some c → c.isWhitespace = false)
    (h2 : ∀ c, s.data.getLast? = some c → c.isWhitespace = false) :
    jsTrim s = s := by
  unfold jsTrim
  have e1 : s.data.dropWhile Char.isWhitespace = s.data := by
    rcases hd : s.data with _ | ⟨c, rest⟩
    · rfl
    · have hc := h1 c (by rw [hd]; rfl)
      rw [List.dropWhile_cons, if_neg (by simp [hc])]
  rw [e1]
  have e2 : s.data.reverse.dropWhile Char.isWhitespace = s.data.reverse := by
    rcases hr : s.data.reverse with _ | ⟨c, rest⟩
    · rfl
    · have hcl : s.data.getLast? = some c := by
        rw [← List.head?_reverse, hr]
        rfl
      have hc := h2 c hcl
      rw [List.dropWhile_cons, if_neg (by simp [hc])]
  rw [e2, List.reverse_reverse]

theorem jsTrim_spec (s : String) :
    jsTrim s = "" ∨
    ((∀ c, (jsTrim s).data.head? = some c → c.isWhitespace = false) ∧
     (∀ c, (jsTrim s).data.getLast? = some c → c.isWhitespace = false) ∧
     jsTrim s ≠ "") := by
  by_cases h0 :
      (s.data.dropWhile Char.isWhitespace).reverse.dropWhile Char.isWhitespace = []
  · left
    unfold jsTrim
    rw [h0]
    rfl
  · right
    have hdata : (jsTrim s).data =
        ((s.data.dropWhile Char.isWhitespace).reverse.dropWhile Char.isWhitespace).reverse := rfl
    have hl1ne : s.data.dropWhile Char.isWhitespace ≠ [] := by
      intro h
      rw [h] at h0
      exact h0 rfl
    refine ⟨?_, ?_, ?_⟩
    · intro c hc
      rw [hdata, List.head?_reverse] at hc
      rw [getLast_dropWhile Char.isWhitespace _ h0, List.getLast?_reverse] at hc
      exact head_dropWhile_not Char.isWhitespace s.data c hc
    · intro c hc
      rw [hdata, List.getLast?_reverse] at hc
      exact head_dropWhile_not Char.isWhitespace _ c hc
    · intro he
      have : (jsTrim s).data = [] := (string_data_eq_nil_iff _).mpr he
      rw [hdata] at this
      exact h0 (by simpa using this)

theorem dedupeGo_subset (l : List String) : ∀ (seen : List String),
    ∀ x ∈ dedupeGo l seen, x ∈ l ∧ x ∉ seen := by
  induction l with
  | nil => simp [dedupeGo]
  | cons a rest ih =>
    intro seen x hx
    by_cases ha : a ∈ seen
    · rw [show dedupeGo (a :: rest) seen = dedupeGo rest seen by simp [dedupeGo, ha]] at hx
      obtain ⟨h1, h2⟩ := ih seen x hx
      exact ⟨List.mem_cons_of_mem a h1, h2⟩
    · rw [show dedupeGo (a :: rest) seen = a :: dedupeGo rest (a :: seen) by
        simp [dedupeGo, ha]] at hx
      rcases List.mem_cons.mp hx with h | h
      · subst h
        exact ⟨List.mem_cons_self x rest, ha⟩
      · obtain ⟨h1, h2⟩ := ih (a :: seen) x h
        exact ⟨List.mem_cons_of_mem a h1, fun hs => h2 (List.mem_cons_of_mem a hs)⟩

theorem dedupeGo_nodup (l : List String) : ∀ (seen : List String), (dedupeGo l seen).Nodup := by
  induction l with
  | nil => simp [dedupeGo]
  | cons a rest ih =>
    intro seen
    by_cases ha : a ∈ seen
    · simpa [dedupeGo, ha] using ih seen
    · rw [show dedupeGo (a :: rest) seen = a :: dedupeGo rest (a :: seen) by simp [dedupeGo, ha]]
      refine List.nodup_cons.mpr ⟨?_, ih (a :: seen)⟩
      intro hmem
      exact (dedupeGo_subset rest (a :: seen) a hmem).2 (List.mem_cons_self a seen)

theorem dedupeGo_eq_self : ∀ (l : List String), l.Nodup →
    ∀ (seen : List String), (∀ x ∈ l, x ∉ seen) → dedupeGo l seen = l := by
  intro l
  induction l with
  | nil => intro _ _ _; rfl
  | cons a rest ih =>
    intro hnd seen hdisj
    have ha : a ∉ seen := hdisj a (List.mem_cons_self a rest)
    rw [show dedupeGo (a :: rest) seen = a :: dedupeGo rest (a :: seen) by simp [dedupeGo, ha]]
    congr 1
    refine ih (List.nodup_cons.mp hnd).2 (a :: seen) ?_
    intro x hx hmem
    rcases List.mem_cons.mp hmem with h | h
    · subst h
      exact (List.nodup_cons.mp hnd).1 hx
    · exact hdisj x (List.mem_cons_of_mem a hx) h

theorem dedupe_subset (l : List String) : ∀ x ∈ dedupe l, x ∈ l :=
  fun x hx => (dedupeGo_subset l [] x hx).1

theorem dedupe_nodup (l : List String) : (dedupe l).Nodup := dedupeGo_nodup l []

theorem dedupe_eq_self_of_nodup (l : List String) (h : l.Nodup) : dedupe l = l :=
  dedupeGo_eq_self l h [] (by simp)

theorem dedupe_ne_nil (l : List String) (h : l ≠ []) : dedupe l ≠ [] := by
  rcases l with _ | ⟨x, xs⟩
  · exact absurd rfl h
  · rw [show dedupe (x :: xs) = x :: dedupeGo xs [x] by simp [dedupe, dedupeGo]]
    exact List.cons_ne_nil x _

theorem jsJoin_cons_cons (sep : String) (u v : String) (rs : List String) :
    jsJoin sep (u :: v :: rs) = u ++ sep ++ jsJoin sep (v :: rs) := rfl

theorem jsJoin_data_ne_nil (d : List String) (hd : d ≠ []) (hne : ∀ u ∈ d, u ≠ "") :
    (jsJoin " " d).data ≠ [] := by
  rcases d with _ | ⟨u, rest⟩
  · exact absurd rfl hd
  · have hu : u.data ≠ [] := fun h =>
      hne u (List.mem_cons_self u rest) ((string_data_eq_nil_iff u).mp h)
    rcases rest with _ | ⟨v, rs⟩
    · exact hu
    · rw [jsJoin_cons_cons, String.data_append, String.data_append]
      simp [hu]

theorem jsJoin_head_notWs (d : List String) (hd : d ≠ [])
    (hne : ∀ u ∈ d, u ≠ "") (hws : ∀ u ∈ d, ∀ c ∈ u.data, c.isWhitespace = false) :
    ∀ c, (jsJoin " " d).data.head? = some c → c.isWhitespace = false := by
  rcases d with _ | ⟨u, rest⟩
  · exact absurd rfl hd
  · intro c hc
    rcases hu : u.data with _ | ⟨a, as⟩
    · exact absurd ((string_data_eq_nil_iff u).mp hu) (hne u (List.mem_cons_self u rest))
    · have hhead : (jsJoin " " (u :: rest)).data.head? = some a := by
        rcases rest with _ | ⟨v, rs⟩
        · show u.data.head? = some a
          rw [hu]
          rfl
        · rw [jsJoin_cons_cons, String.data_append, String.data_append, hu]
          rfl
      rw [hhead] at hc
      have hac : a = c := by
        injection hc
      subst hac
      exact hws u (List.mem_cons_self u rest) a (by rw [hu]; exact List.mem_cons_self a as)

theorem mem_of_getLast?_eq {α : Type} (l : List α) (a : α) (h : l.getLast? = some a) :
    a ∈ l := by
  induction l with
  | nil => simp at h
  | cons x xs ih =>
    rcases xs with _ | ⟨y, ys⟩
    · simp only [List.getLast?_singleton, Option.some.injEq] at h
      subst h
      simp
    · rw [List.getLast?_cons_cons] at h
      exact List.mem_cons_of_mem x (ih h)

theorem jsJoin_getLast_notWs (d : List String) (hd : d ≠ [])
    (hne : ∀ u ∈ d, u ≠ "") (hws : ∀ u ∈ d, ∀ c ∈ u.data, c.isWhitespace = false) :
    ∀ c, (jsJoin " " d).data.getLast? = some c → c.isWhitespace = false := by
  induction d with
  | nil => exact absurd rfl hd
  | cons u rest ih =>
    rcases rest with _ | ⟨v, rs⟩
    · intro c hc
      have hcm : c ∈ u.data := mem_of_getLast?_eq u.data c hc
      exact hws u (List.mem_cons_self u []) c hcm
    · intro c hc
      rw [jsJoin_cons_cons, String.data_append] at hc
      have hne2 : ∀ w ∈ v :: rs, w ≠ "" := fun w hw => hne w (List.mem_cons_of_mem u hw)
      have hJ : (jsJoin " " (v :: rs)).data ≠ [] :=
        jsJoin_data_ne_nil (v :: rs) (List.cons_ne_nil v rs) hne2
      rw [List.getLast?_append] at hc
      rcases hgl : (jsJoin " " (v :: rs)).data.getLast? with _ | x
      · exact absurd (List.getLast?_eq_none_iff.mp hgl) hJ
      · rw [hgl] at hc
        simp only [Option.or_some, Option.some.injEq] at hc
        exact hc ▸ ih (List.cons_ne_nil v rs) hne2
          (fun w hw => hws w (List.mem_cons_of_mem u hw)) x hgl

theorem jsSplitWsGo_jsJoin : ∀ (d : List String), d ≠ [] →
    (∀ u ∈ d, u ≠ "") → (∀ u ∈ d, ∀ c ∈ u.data, c.isWhitespace = false) →
    ∀ (b : Bool) (acc : List String),
      jsSplitWsGo (jsJoin " " d).data b [] acc = acc.reverse ++ d := by
  intro d
  induction d with
  | nil => exact fun h => absurd rfl h
  | cons u rest ih =>
    intro _ hne hws b acc
    have hune : u.data ≠ [] := fun h =>
      hne u (List.mem_cons_self u rest) ((string_data_eq_nil_iff u).mp h)
    have huws : ∀ c ∈ u.data, c.isWhitespace = false := hws u (List.mem_cons_self u rest)
    rcases rest with _ | ⟨v, rs⟩
    · have hfill : (jsJoin " " [u]).data = u.data ++ [] := by simp [jsJoin]
      rw [hfill, jsSplitWsGo_token u.data huws [] b [] acc hune]
      simp [jsSplitWsGo, string_mk_data]
    · have hdata : (jsJoin " " (u :: v :: rs)).data =
          u.data ++ (' ' :: (jsJoin " " (v :: rs)).data) := by
        rw [jsJoin_cons_cons, String.data_append, String.data_append]
        simp
      rw [hdata, jsSplitWsGo_token u.data huws _ b [] acc hune, jsSplitWsGo_sep,
        jsSplitWsGo_acc]
      rw [ih (List.cons_ne_nil v rs) (fun w hw => hne w (List.mem_cons_of_mem u hw))
        (fun w hw => hws w (List.mem_cons_of_mem u hw)) true []]
      simp [string_mk_data]

theorem jsSplitWs_tokens_ne_empty (s : String)
    (hh : ∀ c, s.data.head? = some c → c.isWhitespace = false)
    (hl : ∀ c, s.data.getLast? = some c → c.isWhitespace = false)
    (hne : s ≠ "") :
    ∀ u ∈ jsSplitWs s, u ≠ "" := by
  rcases hd : s.data with _ | ⟨c, rest⟩
  · exact absurd ((string_data_eq_nil_iff s).mp hd) hne
  · have hc : c.isWhitespace = false := hh c (by rw [hd]; rfl)
    unfold jsSplitWs
    rw [hd]
    have step : jsSplitWsGo (c :: rest) false [] [] = jsSplitWsGo rest false [c] [] := by
      simp [jsSplitWsGo, hc]
    rw [step]
    refine jsSplitWsGo_ne_empty rest false [c] [] (by simp)
      (Or.inr ⟨rfl, by simp⟩) (fun _ => rfl) ?_
    intro d hd2
    apply hl
    rw [hd]
    rcases rest with _ | ⟨r, rs⟩
    · simp at hd2
    · rw [List.getLast?_cons_cons]
      exact hd2

theorem jsSplitWs_jsJoin (d : List String) (hd : d ≠ [])
    (hne : ∀ u ∈ d, u ≠ "") (hws : ∀ u ∈ d, ∀ c ∈ u.data, c.isWhitespace = false) :
    jsSplitWs (jsJoin " " d) = d := by
  unfold jsSplitWs
  simpa using jsSplitWsGo_jsJoin d hd hne hws false []

theorem getUniqueScopes_singleton_joined (d : List String) (hd : d ≠ [])
    (hne : ∀ u ∈ d, u ≠ "") (hws : ∀ u ∈ d, ∀ c ∈ u.data, c.isWhitespace = false)
    (hnodup : d.Nodup) :
    getUniqueScopes [jsJoin " " d] = jsJoin " " d := by
  unfold getUniqueScopes
  have h1 : jsJoin " " [jsJoin " " d] = jsJoin " " d := rfl
  rw [h1, jsTrim_eq_self _ (jsJoin_head_notWs d hd hne hws) (jsJoin_getLast_notWs d hd hne hws),
    jsSplitWs_jsJoin d hd hne hws, dedupe_eq_self_of_nodup d hnodup]

theorem getUniqueScopes_idem (ss : List String) :
    getUniqueScopes [getUniqueScopes ss] = getUniqueScopes ss := by
  rcases jsTrim_spec (jsJoin " " ss) with h | ⟨hh, hl, hne⟩
  · have hr : getUniqueScopes ss = "" := by
      unfold getUniqueScopes
      rw [h]
      decide
    rw [hr]
    decide
  · have htoksne : ∀ u ∈ jsSplitWs (jsTrim (jsJoin " " ss)), u ≠ "" :=
      jsSplitWs_tokens_ne_empty _ hh hl hne
    have htoksws : ∀ u ∈ jsSplitWs (jsTrim (jsJoin " " ss)),
        ∀ c ∈ u.data, c.isWhitespace = false := by
      unfold jsSplitWs
      exact jsSplitWsGo_wsFree _ false [] [] (by simp) (by simp)
    have hdne : dedupe (jsSplitWs (jsTrim (jsJoin " " ss))) ≠ [] :=
      dedupe_ne_nil _ (jsSplitWsGo_ne_nil _ _ _ _)
    have hr : getUniqueScopes ss = jsJoin " " (dedupe (jsSplitWs (jsTrim (jsJoin " " ss)))) := rfl
    rw [hr]
    exact getUniqueScopes_singleton_joined _ hdne
      (fun u hu => htoksne u (dedupe_subset _ u hu))
      (fun u hu => htoksws u (dedupe_subset _ u hu))
      (dedupe_nodup _)

/-- Claim C9: `getUniqueScopes` keeps each whitespace-separated token
of its inputs exactly once, at its first occurrence (the deduplicated
token list has no duplicates), and is consequently idempotent:
re-applying it to its own output returns the same string. -/
theorem claim9_get_unique_scopes_idempotent (ss : List String) :
    getUniqueScopes ss = jsJoin " " (dedupe (jsSplitWs (jsTrim (jsJoin " " ss)))) ∧
    (dedupe (jsSplitWs (jsTrim (jsJoin " " ss)))).Nodup ∧
    getUniqueScopes [getUniqueScopes ss] = getUniqueScopes ss :=
  ⟨rfl, dedupe_nodup _, getUniqueScopes_idem ss⟩

theorem dedupeGo_cons_not_mem (x : String) (xs seen : List String) (h : x ∉ seen) :
    dedupeGo (x :: xs) seen = x :: dedupeGo xs (x :: seen) := by
  simp [dedupeGo, h]

theorem jsSplitWsGo_default (z : List Char) :
    jsSplitWsGo (DEFAULT_SCOPE.data ++ ' ' :: z) false [] [] =
      "openid" :: "profile" :: "email" :: jsSplitWsGo z true [] [] := by
  have hsplit : DEFAULT_SCOPE.data ++ ' ' :: z =
      "openid".data ++ ' ' :: ("profile".data ++ ' ' :: ("email".data ++ ' ' :: z)) := rfl
  rw [hsplit]
  rw [jsSplitWsGo_token "openid".data (by decide) _ false [] [] (by decide), jsSplitWsGo_sep]
  rw [jsSplitWsGo_token "profile".data (by decide) _ true [] _ (by decide), jsSplitWsGo_sep]
  rw [jsSplitWsGo_token "email".data (by decide) _ true [] _ (by decide), jsSplitWsGo_sep]
  rw [jsSplitWsGo_acc]
  simp [string_mk_data]

theorem jsJoin_default_cons (more : List String) :
    ∃ rest, jsJoin " " ("openid" :: "profile" :: "email" :: more) = DEFAULT_SCOPE ++ rest := by
  rcases more with _ | ⟨m, ms⟩
  · exact ⟨"", by decide⟩
  · exact ⟨" " ++ jsJoin " " (m :: ms), rfl⟩

theorem getUniqueScopes_default_head (x : String) :
    ∃ rest, getUniqueScopes [DEFAULT_SCOPE, x] = DEFAULT_SCOPE ++ rest := by
  unfold getUniqueScopes
  have hjoin : jsJoin " " [DEFAULT_SCOPE, x] = DEFAULT_SCOPE ++ " " ++ x := rfl
  rw [hjoin]
  have hdata : (DEFAULT_SCOPE ++ " " ++ x).data = (DEFAULT_SCOPE.data ++ [' ']) ++ x.data := by
    rw [String.data_append, String.data_append]
  have hfront : ((DEFAULT_SCOPE.data ++ [' ']) ++ x.data).dropWhile Char.isWhitespace =
      (DEFAULT_SCOPE.data ++ [' ']) ++ x.data := by
    have hsh : (DEFAULT_SCOPE.data ++ [' ']) ++ x.data =
        'o' :: ("penid profile email ".data ++ x.data) := rfl
    rw [hsh, List.dropWhile_cons, if_neg (by decide)]
  by_cases hy : List.dropWhile Char.isWhitespace x.data.reverse = []
  · have htrim : jsTrim (DEFAULT_SCOPE ++ " " ++ x) = DEFAULT_SCOPE := by
      unfold jsTrim
      rw [hdata, hfront]
      rw [List.reverse_append, List.dropWhile_append, hy]
      simp only [List.isEmpty_nil, if_true]
      rw [show (DEFAULT_SCOPE.data ++ [' ']).reverse = ' ' :: DEFAULT_SCOPE.data.reverse from by
        rw [List.reverse_append]; rfl]
      rw [show List.dropWhile Char.isWhitespace (' ' :: DEFAULT_SCOPE.data.reverse) =
        DEFAULT_SCOPE.data.reverse from by decide]
      rw [List.reverse_reverse]
    rw [htrim]
    exact ⟨"", by decide⟩
  · have htrim : jsTrim (DEFAULT_SCOPE ++ " " ++ x) =
        String.mk (DEFAULT_SCOPE.data ++
          ' ' :: (List.dropWhile Char.isWhitespace x.data.reverse).reverse) := by
      unfold jsTrim
      rw [hdata, hfront]
      rw [List.reverse_append, List.dropWhile_append]
      rw [if_neg (by simpa using hy)]
      rw [List.reverse_append, List.reverse_reverse, List.append_assoc]
      rfl
    rw [htrim]
    have hsplit : jsSplitWs (String.mk (DEFAULT_SCOPE.data ++
        ' ' :: (List.dropWhile Char.isWhitespace x.data.reverse).reverse)) =
        "openid" :: "profile" :: "email" ::
          jsSplitWsGo (List.dropWhile Char.isWhitespace x.data.reverse).reverse true [] [] := by
      unfold jsSplitWs
      exact jsSplitWsGo_default _
    rw [hsplit]
    have hdd : dedupe ("openid" :: "profile" :: "email" ::
        jsSplitWsGo (List.dropWhile Char.isWhitespace x.data.reverse).reverse true [] []) =
        "openid" :: "profile" :: "email" ::
          dedupeGo (jsSplitWsGo (List.dropWhile Char.isWhitespace x.data.reverse).reverse true [] [])
            ["email", "profile", "openid"] := by
      unfold dedupe
      rw [dedupeGo_cons_not_mem _ _ _ (by decide), dedupeGo_cons_not_mem _ _ _ (by decide),
        dedupeGo_cons_not_mem _ _ _ (by decide)]
    rw [hdd]
    exact jsJoin_default_cons _

/-- Claim C10: with `isNative = true`,
`tryGetAccessTokenWithPopupOrReLogin` never yields an access token: it
resolves with `null` after triggering a native login whose scope
always starts with (hence includes) the default scopes
`openid profile email`; with `isNative = false` it returns the token
obtained from `getAccessTokenWithPopup` and triggers no native
login. -/
theorem claim10_native_token_null_scope_default
    (clientAudience clientScope optsAudience optsScope : Option String) (popupToken : String) :
    (tryGetAccessTokenWithPopupOrReLogin true clientAudience clientScope optsAudience optsScope
      popupToken).resolved = none ∧
    (∃ rest, (tryGetAccessTokenWithPopupOrReLogin true clientAudience clientScope optsAudience
      optsScope popupToken).loginScope = some ("openid profile email" ++ rest)) ∧
    (tryGetAccessTokenWithPopupOrReLogin false clientAudience clientScope optsAudience optsScope
      popupToken).resolved = some popupToken ∧
    (tryGetAccessTokenWithPopupOrReLogin false clientAudience clientScope optsAudience optsScope
      popupToken).loginScope = none := by
  refine ⟨rfl, ?_, rfl, rfl⟩
  obtain ⟨rest, hrest⟩ :=
    getUniqueScopes_default_head (jsOrStr optsScope (jsOrStr clientScope DEFAULT_SCOPE))
  refine ⟨rest, ?_⟩
  show some (getUniqueScopes [DEFAULT_SCOPE,
    jsOrStr optsScope (jsOrStr clientScope DEFAULT_SCOPE)]) = some ("openid profile email" ++ rest)
  rw [hrest]
  rfl
